import Mathlib

/-!
Shallow embedding of `src/ga/crossover.py` (class `Crossover`): the
generation loop `Crossover.__call__` and the crossover operation
`Crossover.bb_lk_exchange`.

Modelling conventions:
* Molecules are an abstract type `M` with decidable equality; the keyword
  parameter dictionaries of a `FunctionData` are an abstract type `P`.
* Python exceptions are values of `PyExc`; a fallible call returns
  `Except PyExc`.
* `np.random.choice(funcs, p=weights)` always returns an element of
  `funcs` (it raises on an empty list).  The randomness — the index
  sampled from the weighted distribution — is supplied by an oracle
  `pick : Nat → Nat`; `npChoice` reduces it modulo the list length, so
  every in-range index is reachable and no out-of-range one is.  The
  numerical weight validation and the shape of the distribution are not
  modelled beyond this.
* `getattr(self, name)` is modelled by lookup in an explicit method
  table `List (String × ...)` standing for the class namespace; a missing
  attribute is an `AttributeError` raised outside the `try` block, as in
  the source.
* `collections.Counter` is an insertion-ordered association list
  `List (M × Nat)`, as a Python dict is.
* The `Population` class is not part of the sources.  Its two operations
  used here, `add_members` and `-=`, are modelled from the spec (see
  `addMembers` and `popSub`).
* `logger` calls have no effect on the state and are omitted.
* The call of `plot_counter(counter, counter_path)` is recorded in the
  result (`plotted`) instead of producing a file.
-/

/-- Mirror of the ``FunctionData`` objects held in `Crossover.funcs`:
a method name together with the keyword parameters passed to it. -/
structure FunctionData (P : Type) where
  name : String
  params : P
deriving DecidableEq

/-- Python exceptions, as far as the crossover module can observe them. -/
inductive PyExc where
  /-- raised by `np.random.choice` on an empty list, or by `max`/`min`
  on an empty sequence. -/
  | valueError : PyExc
  /-- raised by `getattr` when the class has no attribute of that name. -/
  | attributeError : PyExc
  /-- any exception raised inside an invoked crossover function. -/
  | exc : PyExc
deriving DecidableEq

/-- Mirror of the `Crossover.__init__` attributes. `weights` only shapes
the sampling distribution of `np.random.choice`; the sampled index is
supplied by the `pick` oracle of `Crossover.call`. -/
structure Crossover (P : Type) where
  funcs : List (FunctionData P)
  weights : Option (List Rat)
  num_crossovers : Nat

/-- Keys of a counter, in insertion order. -/
def cntKeys {M : Type} (c : List (M × Nat)) : List M :=
  c.map (fun kv => kv.1)

/-- Count stored for `m`; `0` when `m` is not a key (`Counter.__getitem__`). -/
def cntCount {M : Type} [DecidableEq M] : List (M × Nat) → M → Nat
  | [], _ => 0
  | (a, n) :: rest, m => if a = m then n else cntCount rest m

/-- Add `k` to the count of `m`, inserting the key at the end when absent:
one element of a `Counter.update` call. -/
def cntAdd {M : Type} [DecidableEq M] : List (M × Nat) → M → Nat → List (M × Nat)
  | [], m, k => [(m, k)]
  | (a, n) :: rest, m, k =>
    if a = m then (a, n + k) :: rest else (a, n) :: cntAdd rest m k

/-- Modelled from the spec: `Population.add_members` ("collect
non-exceptional results into an offspring set") — each new member is
appended unless an equal member is already present.  The `Population`
class itself is not among the sources. -/
def addMembers {M : Type} [DecidableEq M] (cur new : List M) : List M :=
  new.foldl (fun acc o => if o ∈ acc then acc else acc ++ [o]) cur

/-- Modelled from the spec: `Population.__isub__` ("set-difference
deduplication of offspring against the parent population") — keep the
members of `offs` that equal no member of `pop`.  The `Population` class
itself is not among the sources. -/
def popSub {M : Type} [DecidableEq M] (offs pop : List M) : List M :=
  offs.filter (fun m => decide (¬ m ∈ pop))

/-- Draw from the stream `s` starting at position `i`, stopping at
exhaustion or after `n` draws: `itertools.islice(s, n)` seen from
position `i`. -/
def isliceFrom {A : Type} (s : Nat → Option A) : Nat → Nat → List A
  | _, 0 => []
  | i, n + 1 =>
    match s i with
    | none => []
    | some a => a :: isliceFrom s (i + 1) n

/-- Mirror of `itertools.islice(s, n)`. -/
def islice {A : Type} (s : Nat → Option A) (n : Nat) : List A :=
  isliceFrom s 0 n

/-- A finite selection stream backed by a list. -/
def streamOfList {A : Type} (l : List A) : Nat → Option A :=
  fun i => l.get? i

/-- Mirror of `np.random.choice(funcs, p=weights)` given the sampled
index `r`: an element of `funcs` when the list is nonempty, `none`
(a `ValueError`) when it is empty. -/
def npChoice {F : Type} (funcs : List F) (r : Nat) : Option F :=
  funcs.get? (r % funcs.length)

/-- Mirror of `getattr(self, name)` over an explicit method table. -/
def getattrT {F : Type} (table : List (String × F)) (name : String) : Option F :=
  (table.find? (fun kv => kv.1 == name)).map (fun kv => kv.2)

/-- The mutable state of the loop in `Crossover.__call__`, plus two
traces that make the control flow observable: `attempts` counts loop
iterations (the enumerate counter `i`), `calls` records each invocation
performed — the sampled `FunctionData` and the two parents passed
positionally. -/
structure CallState (M P : Type) where
  offspring : List M
  counter : List (M × Nat)
  attempts : Nat
  calls : List (FunctionData P × M × M)

/-- One iteration of the loop of `Crossover.__call__` on the parent pair
`(p1, p2)`: update the counter, sample a function, resolve it by name,
invoke it inside `try`, and on success add the offspring (a raised
exception is logged and the state keeps its offspring). -/
def loopStep {M P : Type} [DecidableEq M] (funcs : List (FunctionData P))
    (table : List (String × (M → M → P → Except PyExc (List M))))
    (pick : Nat → Nat) (i : Nat) (p1 p2 : M) (st : CallState M P) :
    Except PyExc (CallState M P) :=
  let counter2 := cntAdd (cntAdd st.counter p1 1) p2 1
  match npChoice funcs (pick i) with
  | none => Except.error PyExc.valueError
  | some func_data =>
    match getattrT table func_data.name with
    | none => Except.error PyExc.attributeError
    | some func =>
      let offspring2 :=
        match func p1 p2 func_data.params with
        | Except.ok offspring => addMembers st.offspring offspring
        | Except.error _ => st.offspring
      Except.ok
        { offspring := offspring2
          counter := counter2
          attempts := st.attempts + 1
          calls := st.calls ++ [(func_data, p1, p2)] }

/-- The loop of `Crossover.__call__` over the drawn parent pairs. -/
def callLoop {M P : Type} [DecidableEq M] (funcs : List (FunctionData P))
    (table : List (String × (M → M → P → Except PyExc (List M))))
    (pick : Nat → Nat) :
    List (M × M) → Nat → CallState M P → Except PyExc (CallState M P)
  | [], _, st => Except.ok st
  | (p1, p2) :: rest, i, st =>
    match loopStep funcs table pick i p1 p2 st with
    | Except.error e => Except.error e
    | Except.ok st2 => callLoop funcs table pick rest (i + 1) st2

/-- Offspring contributed by the iteration at position `i` on pair
`(p1, p2)`: those returned by a non-raising invocation, nothing
otherwise. -/
def stepOffspring {M P : Type} (funcs : List (FunctionData P))
    (table : List (String × (M → M → P → Except PyExc (List M))))
    (pick : Nat → Nat) (i : Nat) (p1 p2 : M) : List M :=
  match npChoice funcs (pick i) with
  | none => []
  | some func_data =>
    match getattrT table func_data.name with
    | none => []
    | some func =>
      match func p1 p2 func_data.params with
      | Except.ok offspring => offspring
      | Except.error _ => []

/-- All offspring returned by the successful invocations of the loop,
in order. -/
def successOffspring {M P : Type} (funcs : List (FunctionData P))
    (table : List (String × (M → M → P → Except PyExc (List M))))
    (pick : Nat → Nat) : Nat → List (M × M) → List M
  | _, [] => []
  | i, (p1, p2) :: rest =>
    stepOffspring funcs table pick i p1 p2 ++
      successOffspring funcs table pick (i + 1) rest

/-- The invocation trace the loop produces: for each drawn pair, the
`FunctionData` sampled for it and the pair itself. -/
def callTrace {M P : Type} (funcs : List (FunctionData P))
    (pick : Nat → Nat) : Nat → List (M × M) → List (FunctionData P × M × M)
  | _, [] => []
  | i, (p1, p2) :: rest =>
    match npChoice funcs (pick i) with
    | none => []
    | some func_data => (func_data, p1, p2) :: callTrace funcs pick (i + 1) rest

/-- Mirror of the counter back-fill before plotting: every population
member that is not yet a key is inserted with count `0`
(`counter.update({member: 0})`). -/
def fillZeros {M : Type} [DecidableEq M] (c : List (M × Nat)) (pop : List M) :
    List (M × Nat) :=
  pop.foldl (fun acc m => if m ∈ cntKeys acc then acc else cntAdd acc m 0) c

/-- Observable outcome of `Crossover.__call__`: the returned offspring
population, the final counter, the `plot_counter` call if one was made
(its counter and path), and the loop traces. -/
structure CallResult (M P : Type) where
  offspring : List M
  counter : List (M × Nat)
  plotted : Option (List (M × Nat) × String)
  attempts : Nat
  calls : List (FunctionData P × M × M)

/-- A cage as `bb_lk_exchange` reads it: the counter mapping its
building blocks to how often each occurs (`bb_counter`, a dict in
insertion order) and its topology.  Keys are ordered (`LinearOrder B`
stands for the comparison Python applies to them when `max`/`min`
tie-break on tuples). -/
structure CageIn (B T : Type) where
  bb_counter : List (B × Nat)
  topology : T

/-- The arguments of one `Cage((lk, bb), topology)` construction: the
identity of an offspring as `bb_lk_exchange` builds it. -/
structure CageArgs (B T : Type) where
  bblocks : B × B
  topology : T
deriving DecidableEq

/-- Python comparison `p < q` on `(count, key)` tuples: lexicographic. -/
def lexLtB {B : Type} [LinearOrder B] (p q : Nat × B) : Bool :=
  decide (p.1 < q.1) || (decide (p.1 = q.1) && decide (p.2 < q.2))

/-- Nonstrict lexicographic order on `(count, key)` tuples. -/
def lexLe {B : Type} [LinearOrder B] (p q : Nat × B) : Prop :=
  p.1 < q.1 ∨ (p.1 = q.1 ∧ p.2 ≤ q.2)

/-- Python `max` over a nonempty sequence of tuples: scan, replacing the
best only on a strictly greater element (so the first maximum wins). -/
def lexMaxFold {B : Type} [LinearOrder B] (best : Nat × B) (l : List (Nat × B)) :
    Nat × B :=
  l.foldl (fun b q => if lexLtB b q then q else b) best

/-- Python `min` over a nonempty sequence of tuples: scan, replacing the
best only on a strictly smaller element (so the first minimum wins). -/
def lexMinFold {B : Type} [LinearOrder B] (best : Nat × B) (l : List (Nat × B)) :
    Nat × B :=
  l.foldl (fun b q => if lexLtB q b then q else b) best

/-- Mirror of `zip(counter.values(), counter.keys())` on `bb_counter`. -/
def zippedCounter {B T : Type} (c : CageIn B T) : List (Nat × B) :=
  c.bb_counter.map (fun kv => (kv.2, kv.1))

/-- Key selected as the linker of a cage:
`_, lk = max(zip(bb_counter.values(), bb_counter.keys()))`. -/
def cageLk {B T : Type} [LinearOrder B] (c : CageIn B T) : Option B :=
  match zippedCounter c with
  | [] => none
  | p :: rest => some (lexMaxFold p rest).2

/-- Key selected as the building block of a cage:
`_, bb = min(zip(bb_counter.values(), bb_counter.keys()))`. -/
def cageBb {B T : Type} [LinearOrder B] (c : CageIn B T) : Option B :=
  match zippedCounter c with
  | [] => none
  | p :: rest => some (lexMinFold p rest).2

/-- Mirror of `Crossover.bb_lk_exchange`.  Returns the list of `Cage`
constructions in the order they are performed, together with the
offspring population accumulated by `add_members`.  `max`/`min` on an
empty `bb_counter` raise a `ValueError`. -/
def Crossover.bb_lk_exchange {B T : Type} [LinearOrder B] [DecidableEq T]
    (macro_mol1 macro_mol2 : CageIn B T) :
    Except PyExc (List (CageArgs B T) × List (CageArgs B T)) :=
  match zippedCounter macro_mol1, zippedCounter macro_mol2 with
  | p1 :: r1, p2 :: r2 =>
    let c1_lk := (lexMaxFold p1 r1).2
    let c1_bb := (lexMinFold p1 r1).2
    let c2_lk := (lexMaxFold p2 r2).2
    let c2_bb := (lexMinFold p2 r2).2
    let topologies := [macro_mol1.topology, macro_mol2.topology]
    Except.ok (topologies.foldl
      (fun acc topology =>
        let offspring1 : CageArgs B T := { bblocks := (c1_lk, c2_bb), topology := topology }
        let offspring2 : CageArgs B T := { bblocks := (c2_lk, c1_bb), topology := topology }
        (acc.1 ++ [offspring1, offspring2], addMembers acc.2 [offspring1, offspring2]))
      ([], []))
  | _, _ => Except.error PyExc.valueError

/-- Multiplicity of `m` in a parent pair, as `counter.update(parents)`
counts it. -/
def pairMult {M : Type} [DecidableEq M] (m : M) (pr : M × M) : Nat :=
  (if pr.1 = m then 1 else 0) + (if pr.2 = m then 1 else 0)

/-- Total number of occurrences of `m` across a list of parent pairs. -/
def multSum {M : Type} [DecidableEq M] (m : M) (l : List (M × M)) : Nat :=
  (l.map (pairMult m)).sum

/-- Mirror of `Crossover.__call__`.  `stream` is the parent-selection
generator obtained from `population.select` (external to the sources),
`pick` the sampling oracle of `np.random.choice`, `table` the class
namespace consulted by `getattr`. -/
def Crossover.call {M P : Type} [DecidableEq M] (cfg : Crossover P)
    (table : List (String × (M → M → P → Except PyExc (List M))))
    (pick : Nat → Nat) (stream : Nat → Option (M × M))
    (population : List M) (counterPath : String) :
    Except PyExc (CallResult M P) :=
  let parent_pool := islice stream cfg.num_crossovers
  match callLoop cfg.funcs table pick parent_pool 0
      { offspring := [], counter := [], attempts := 0, calls := [] } with
  | Except.error e => Except.error e
  | Except.ok st =>
    let offspring_pop := popSub st.offspring population
    if counterPath.isEmpty then
      Except.ok
        { offspring := offspring_pop
          counter := st.counter
          plotted := none
          attempts := st.attempts
          calls := st.calls }
    else
      let counter2 := fillZeros st.counter population
      Except.ok
        { offspring := offspring_pop
          counter := counter2
          plotted := some (counter2, counterPath)
          attempts := st.attempts
          calls := st.calls }

/-! ## Concrete fixtures used to exercise the model on closed inputs -/

/-- A sample function name. -/
def fName : String := "f"

/-- A sampling oracle that always picks index 0. -/
def examplePick : Nat → Nat := fun _ => 0

/-- A one-element function list. -/
def exampleFuncs : List (FunctionData Unit) := [{ name := fName, params := () }]

/-- A sample configuration requesting two crossovers. -/
def exampleCfg : Crossover Unit :=
  { funcs := exampleFuncs, weights := none, num_crossovers := 2 }

/-- A method table whose single function returns one offspring, the sum
of the parents. -/
def sumTable : List (String × (Nat → Nat → Unit → Except PyExc (List Nat))) :=
  [(fName, fun a b _ => Except.ok [a + b])]

/-- A method table whose single function always raises. -/
def failTable : List (String × (Nat → Nat → Unit → Except PyExc (List Nat))) :=
  [(fName, fun _ _ _ => Except.error PyExc.exc)]

/-- A sample parent population. -/
def examplePop : List Nat := [1, 2, 3]

/-- A sample selection stream yielding two parent pairs. -/
def exampleStream : Nat → Option (Nat × Nat) := streamOfList [(1, 2), (2, 3)]

/-- The empty counter path (no plot requested). -/
def pathEmpty : String := ""

/-- A nonempty counter path (plot requested). -/
def pathPng : String := "c.png"

/-- The result of `Crossover.call` on the fixtures with no counter path. -/
def exampleRes : CallResult Nat Unit :=
  { offspring := [5]
    counter := [(1, 1), (2, 2), (3, 1)]
    plotted := none
    attempts := 2
    calls := [({ name := fName, params := () }, 1, 2),
              ({ name := fName, params := () }, 2, 3)] }

/-- The result of `Crossover.call` on the fixtures with counter path `pathPng`. -/
def exampleResPlot : CallResult Nat Unit :=
  { offspring := [5]
    counter := [(1, 1), (2, 2), (3, 1)]
    plotted := some ([(1, 1), (2, 2), (3, 1)], pathPng)
    attempts := 2
    calls := [({ name := fName, params := () }, 1, 2),
              ({ name := fName, params := () }, 2, 3)] }

/-- A sample parent cage: building block 10 occurs 4 times, linker 20
occurs 6 times, topology 0. -/
def cage1 : CageIn Nat Nat := { bb_counter := [(10, 4), (20, 6)], topology := 0 }

/-- A second sample parent cage with topology 1. -/
def cage2 : CageIn Nat Nat := { bb_counter := [(30, 4), (40, 6)], topology := 1 }

/-- A cage whose two building blocks have equal counts: the `max`/`min`
tie is decided by the keys. -/
def cageTie : CageIn Nat Nat := { bb_counter := [(0, 2), (1, 2)], topology := 7 }

/-- A selection stream yielding one degenerate pair: the same molecule
twice. -/
def dupStream : Nat → Option (Nat × Nat) := streamOfList [(1, 1)]

/-- The result of `Crossover.call` on the fixtures with the degenerate
stream: the single member of the pair is counted twice by
`counter.update(parents)`. -/
def dupRes : CallResult Nat Unit :=
  { offspring := []
    counter := [(1, 2)]
    plotted := none
    attempts := 1
    calls := [({ name := fName, params := () }, 1, 1)] }

/-- A third sample parent cage sharing the topology of `cage1`. -/
def cage3 : CageIn Nat Nat := { bb_counter := [(50, 4), (60, 6)], topology := 0 }

/-- The construction list of `Crossover.bb_lk_exchange cage1 cage2`. -/
def cageCons : List (CageArgs Nat Nat) :=
  [{ bblocks := (20, 30), topology := 0 },
   { bblocks := (40, 10), topology := 0 },
   { bblocks := (20, 30), topology := 1 },
   { bblocks := (40, 10), topology := 1 }]

/-! ## Basic lemmas about the container operations -/

theorem addMembers_nil {M : Type} [DecidableEq M] (cur : List M) :
    addMembers cur [] = cur := rfl

theorem addMembers_cons {M : Type} [DecidableEq M] (cur : List M) (o : M) (rest : List M) :
    addMembers cur (o :: rest) = addMembers (if o ∈ cur then cur else cur ++ [o]) rest := rfl

theorem addMembers_mem {M : Type} [DecidableEq M] (cur new : List M) (m : M) :
    m ∈ addMembers cur new ↔ m ∈ cur ∨ m ∈ new := by
  induction new generalizing cur with
  | nil => simp [addMembers]
  | cons o rest ih =>
    rw [addMembers_cons, ih]
    by_cases h : o ∈ cur
    · simp only [if_pos h, List.mem_cons]
      constructor
      · intro hc
        rcases hc with hc | hc
        · exact Or.inl hc
        · exact Or.inr (Or.inr hc)
      · intro hc
        rcases hc with hc | hc | hc
        · exact Or.inl hc
        · exact Or.inl (hc ▸ h)
        · exact Or.inr hc
    · simp only [if_neg h, List.mem_append, List.mem_singleton, List.mem_cons]
      tauto

theorem popSub_mem {M : Type} [DecidableEq M] (offs pop : List M) (m : M) :
    m ∈ popSub offs pop ↔ m ∈ offs ∧ ¬ m ∈ pop := by
  simp [popSub, List.mem_filter]

theorem cntCount_cntAdd {M : Type} [DecidableEq M] (c : List (M × Nat)) (a m : M) (k : Nat) :
    cntCount (cntAdd c a k) m = cntCount c m + if a = m then k else 0 := by
  induction c with
  | nil =>
    by_cases h : a = m <;> simp [cntAdd, cntCount, h]
  | cons kv rest ih =>
    obtain ⟨b, n⟩ := kv
    simp only [cntAdd]
    by_cases hba : b = a
    · subst hba
      simp only [if_pos rfl, cntCount]
      by_cases hbm : b = m
      · simp [hbm]
      · simp [hbm]
    · simp only [if_neg hba, cntCount]
      by_cases hbm : b = m
      · have ham : ¬ a = m := fun hh => hba (hbm.trans hh.symm)
        simp [hbm, ham]
      · simp [hbm, ih]

theorem cntKeys_cntAdd {M : Type} [DecidableEq M] (c : List (M × Nat)) (a m : M) (k : Nat) :
    m ∈ cntKeys (cntAdd c a k) ↔ m ∈ cntKeys c ∨ m = a := by
  induction c with
  | nil => simp [cntAdd, cntKeys]
  | cons kv rest ih =>
    obtain ⟨b, n⟩ := kv
    by_cases hba : b = a
    · subst hba
      simp [cntAdd, cntKeys]
      tauto
    · simp only [cntAdd, if_neg hba, cntKeys, List.map_cons, List.mem_cons] at *
      tauto

theorem cntKeys_cons {M : Type} (b : M) (n : Nat) (rest : List (M × Nat)) :
    cntKeys ((b, n) :: rest) = b :: cntKeys rest := rfl

theorem cntCount_of_not_key {M : Type} [DecidableEq M] (c : List (M × Nat)) (m : M)
    (h : ¬ m ∈ cntKeys c) : cntCount c m = 0 := by
  induction c with
  | nil => rfl
  | cons kv rest ih =>
    obtain ⟨b, n⟩ := kv
    rw [cntKeys_cons, List.mem_cons] at h
    push_neg at h
    have hb : ¬ b = m := fun hb => h.1 hb.symm
    simp only [cntCount, if_neg hb]
    exact ih h.2

theorem fillZeros_cons {M : Type} [DecidableEq M] (c : List (M × Nat)) (x : M) (rest : List M) :
    fillZeros c (x :: rest) =
      fillZeros (if x ∈ cntKeys c then c else cntAdd c x 0) rest := rfl

theorem fillZeros_count {M : Type} [DecidableEq M] (pop : List M) (c : List (M × Nat)) (m : M) :
    cntCount (fillZeros c pop) m = cntCount c m := by
  induction pop generalizing c with
  | nil => rfl
  | cons x rest ih =>
    rw [fillZeros_cons, ih]
    by_cases h : x ∈ cntKeys c
    · simp [h]
    · simp [h, cntCount_cntAdd]

theorem fillZeros_keys {M : Type} [DecidableEq M] (pop : List M) (c : List (M × Nat)) (m : M)
    (h : m ∈ cntKeys c ∨ m ∈ pop) : m ∈ cntKeys (fillZeros c pop) := by
  induction pop generalizing c with
  | nil => simpa using h
  | cons x rest ih =>
    rw [fillZeros_cons]
    apply ih
    by_cases hx : x ∈ cntKeys c
    · simp only [if_pos hx]
      rcases h with h | h
      · exact Or.inl h
      · rcases List.mem_cons.mp h with h | h
        · exact Or.inl (h ▸ hx)
        · exact Or.inr h
    · simp only [if_neg hx]
      rcases h with h | h
      · exact Or.inl ((cntKeys_cntAdd c x m 0).mpr (Or.inl h))
      · rcases List.mem_cons.mp h with h | h
        · exact Or.inl ((cntKeys_cntAdd c x m 0).mpr (Or.inr h))
        · exact Or.inr h

theorem npChoice_mem {F : Type} (funcs : List F) (r : Nat) (f : F)
    (h : npChoice funcs r = some f) : f ∈ funcs :=
  List.get?_mem h

theorem npChoice_isSome {F : Type} (funcs : List F) (r : Nat) (h : funcs ≠ []) :
    ∃ f, npChoice funcs r = some f := by
  have hlen : 0 < funcs.length := List.length_pos.mpr h
  have hm : r % funcs.length < funcs.length := Nat.mod_lt _ hlen
  exact ⟨funcs.get ⟨r % funcs.length, hm⟩, List.get?_eq_get hm⟩

/-! ## Lemmas about islice -/

theorem isliceFrom_succ {A : Type} (s : Nat → Option A) (i n : Nat) :
    isliceFrom s i (n + 1) =
      match s i with
      | none => []
      | some a => a :: isliceFrom s (i + 1) n := rfl

theorem isliceFrom_length_le {A : Type} (s : Nat → Option A) :
    ∀ (n i : Nat), (isliceFrom s i n).length ≤ n := by
  intro n
  induction n with
  | zero => intro i; simp [isliceFrom]
  | succ n ih =>
    intro i
    rw [isliceFrom_succ]
    cases hs : s i with
    | none => simp
    | some a =>
      simp only [List.length_cons]
      exact Nat.succ_le_succ (ih (i + 1))

theorem isliceFrom_length_total {A : Type} (s : Nat → Option A)
    (h : ∀ j, (s j).isSome) : ∀ (n i : Nat), (isliceFrom s i n).length = n := by
  intro n
  induction n with
  | zero => intro i; rfl
  | succ n ih =>
    intro i
    rw [isliceFrom_succ]
    cases hs : s i with
    | none =>
      have hi := h i
      rw [hs] at hi
      simp at hi
    | some a => simp [ih (i + 1)]

theorem isliceFrom_list_length {A : Type} (l : List A) :
    ∀ (n i : Nat), (isliceFrom (streamOfList l) i n).length = min n (l.length - i) := by
  intro n
  induction n with
  | zero => intro i; simp [isliceFrom]
  | succ n ih =>
    intro i
    rw [isliceFrom_succ]
    cases hs : streamOfList l i with
    | none =>
      have hlen : l.length ≤ i := by
        simpa [streamOfList, List.get?_eq_none] using hs
      simp only [List.length_nil]
      omega
    | some a =>
      have hi : i < l.length := by
        by_contra hge
        rw [streamOfList, List.get?_eq_none.mpr (by omega)] at hs
        cases hs
      simp only [List.length_cons, ih (i + 1)]
      omega

theorem islice_length_le {A : Type} (s : Nat → Option A) (n : Nat) :
    (islice s n).length ≤ n :=
  isliceFrom_length_le s n 0

theorem islice_length_total {A : Type} (s : Nat → Option A) (n : Nat)
    (h : ∀ j, (s j).isSome) : (islice s n).length = n :=
  isliceFrom_length_total s h n 0

theorem islice_list_length {A : Type} (l : List A) (n : Nat) :
    (islice (streamOfList l) n).length = min n l.length := by
  have := isliceFrom_list_length l n 0
  simpa [islice] using this

/-! ## Lemmas about the generation loop -/

theorem loopStep_ok {M P : Type} [DecidableEq M] {funcs : List (FunctionData P)}
    {table : List (String × (M → M → P → Except PyExc (List M)))}
    {pick : Nat → Nat} {i : Nat} {p1 p2 : M} {st st2 : CallState M P}
    (h : loopStep funcs table pick i p1 p2 st = Except.ok st2) :
    ∃ fd func, npChoice funcs (pick i) = some fd
      ∧ getattrT table fd.name = some func
      ∧ st2 = { offspring := addMembers st.offspring (stepOffspring funcs table pick i p1 p2)
                counter := cntAdd (cntAdd st.counter p1 1) p2 1
                attempts := st.attempts + 1
                calls := st.calls ++ [(fd, p1, p2)] } := by
  unfold loopStep at h
  cases hc : npChoice funcs (pick i) with
  | none =>
    simp only [hc] at h
    exact Except.noConfusion h
  | some fd =>
    simp only [hc] at h
    cases hg : getattrT table fd.name with
    | none =>
      simp only [hg] at h
      exact Except.noConfusion h
    | some func =>
      simp only [hg] at h
      refine ⟨fd, func, rfl, hg, ?_⟩
      cases hf : func p1 p2 fd.params with
      | ok offs =>
        simp only [hf] at h
        cases h
        simp only [stepOffspring, hc, hg, hf]
      | error e =>
        simp only [hf] at h
        cases h
        simp only [stepOffspring, hc, hg, hf, addMembers_nil]

theorem loopStep_total {M P : Type} [DecidableEq M] (funcs : List (FunctionData P))
    (table : List (String × (M → M → P → Except PyExc (List M))))
    (pick : Nat → Nat) (i : Nat) (p1 p2 : M) (st : CallState M P)
    (hne : funcs ≠ [])
    (hres : ∀ fd ∈ funcs, ∃ f, getattrT table fd.name = some f) :
    ∃ st2, loopStep funcs table pick i p1 p2 st = Except.ok st2 := by
  obtain ⟨fd, hc⟩ := npChoice_isSome funcs (pick i) hne
  obtain ⟨f, hg⟩ := hres fd (npChoice_mem funcs (pick i) fd hc)
  unfold loopStep
  simp only [hc, hg]
  cases f p1 p2 fd.params <;> exact ⟨_, rfl⟩

theorem callLoop_cons {M P : Type} [DecidableEq M] (funcs : List (FunctionData P))
    (table : List (String × (M → M → P → Except PyExc (List M))))
    (pick : Nat → Nat) (p1 p2 : M) (rest : List (M × M)) (i : Nat) (st : CallState M P) :
    callLoop funcs table pick ((p1, p2) :: rest) i st =
      match loopStep funcs table pick i p1 p2 st with
      | Except.error e => Except.error e
      | Except.ok st2 => callLoop funcs table pick rest (i + 1) st2 := rfl

theorem callLoop_ok {M P : Type} [DecidableEq M] (funcs : List (FunctionData P))
    (table : List (String × (M → M → P → Except PyExc (List M))))
    (pick : Nat → Nat) :
    ∀ (pairs : List (M × M)) (i : Nat) (st st' : CallState M P),
      callLoop funcs table pick pairs i st = Except.ok st' →
      (∀ m, m ∈ st'.offspring ↔
          m ∈ st.offspring ∨ m ∈ successOffspring funcs table pick i pairs)
      ∧ (∀ m, cntCount st'.counter m = cntCount st.counter m + multSum m pairs)
      ∧ st'.attempts = st.attempts + pairs.length
      ∧ st'.calls = st.calls ++ callTrace funcs pick i pairs
      ∧ (callTrace funcs pick i pairs).length = pairs.length
      ∧ (∀ m, m ∈ cntKeys st'.counter ↔
          m ∈ cntKeys st.counter ∨ ∃ pr ∈ pairs, pr.1 = m ∨ pr.2 = m) := by
  intro pairs
  induction pairs with
  | nil =>
    intro i st st' h
    cases h
    refine ⟨fun m => by simp [successOffspring], fun m => by simp [multSum],
      by simp, by simp [callTrace], by simp [callTrace], fun m => by simp⟩
  | cons pr rest ih =>
    intro i st st' h
    obtain ⟨p1, p2⟩ := pr
    rw [callLoop_cons] at h
    cases hstep : loopStep funcs table pick i p1 p2 st with
    | error e =>
      simp only [hstep] at h
      exact Except.noConfusion h
    | ok st2 =>
      simp only [hstep] at h
      obtain ⟨fd, func, hc, hg, hst2⟩ := loopStep_ok hstep
      obtain ⟨ihoff, ihcnt, ihatt, ihcalls, ihtrlen, ihkeys⟩ := ih (i + 1) st2 st' h
      subst hst2
      refine ⟨?_, ?_, ?_, ?_, ?_, ?_⟩
      · intro m
        rw [ihoff m]
        simp only [addMembers_mem, successOffspring, List.mem_append]
        tauto
      · intro m
        rw [ihcnt m]
        simp only [cntCount_cntAdd, multSum, List.map_cons, List.sum_cons, pairMult]
        by_cases h1 : p1 = m <;> by_cases h2 : p2 = m <;>
          simp only [h1, h2, if_pos, if_neg, multSum] <;> simp [h1, h2] <;> omega
      · rw [ihatt]
        simp only [List.length_cons]
        omega
      · rw [ihcalls]
        simp only [callTrace, hc, List.append_assoc, List.cons_append, List.nil_append]
      · simp only [callTrace, hc, List.length_cons, ihtrlen]
      · intro m
        rw [ihkeys m]
        simp only [cntKeys_cntAdd, List.mem_cons]
        constructor
        · intro hm
          rcases hm with hm | hm
          · rcases hm with hm | hm
            · rcases hm with hm | hm
              · exact Or.inl hm
              · exact Or.inr ⟨(p1, p2), by simp, Or.inl hm.symm⟩
            · exact Or.inr ⟨(p1, p2), by simp, Or.inr hm.symm⟩
          · obtain ⟨q, hq, hqm⟩ := hm
            exact Or.inr ⟨q, by simp [hq], hqm⟩
        · intro hm
          rcases hm with hm | hm
          · exact Or.inl (Or.inl (Or.inl hm))
          · obtain ⟨q, hq, hqm⟩ := hm
            rcases hq with hq | hq
            · subst hq
              rcases hqm with hqm | hqm
              · exact Or.inl (Or.inl (Or.inr hqm.symm))
              · exact Or.inl (Or.inr hqm.symm)
            · exact Or.inr ⟨q, hq, hqm⟩

theorem callLoop_total {M P : Type} [DecidableEq M] (funcs : List (FunctionData P))
    (table : List (String × (M → M → P → Except PyExc (List M))))
    (pick : Nat → Nat)
    (hne : funcs ≠ [])
    (hres : ∀ fd ∈ funcs, ∃ f, getattrT table fd.name = some f) :
    ∀ (pairs : List (M × M)) (i : Nat) (st : CallState M P),
      ∃ st', callLoop funcs table pick pairs i st = Except.ok st' := by
  intro pairs
  induction pairs with
  | nil => exact fun i st => ⟨st, rfl⟩
  | cons pr rest ih =>
    intro i st
    obtain ⟨p1, p2⟩ := pr
    obtain ⟨st2, hstep⟩ := loopStep_total funcs table pick i p1 p2 st hne hres
    obtain ⟨st', h'⟩ := ih (i + 1) st2
    refine ⟨st', ?_⟩
    rw [callLoop_cons]
    simp only [hstep]
    exact h'

theorem successOffspring_all_error {M P : Type} (funcs : List (FunctionData P))
    (table : List (String × (M → M → P → Except PyExc (List M))))
    (pick : Nat → Nat)
    (hfail : ∀ fd ∈ funcs, ∀ f, getattrT table fd.name = some f →
      ∀ a b : M, ∃ e, f a b fd.params = Except.error e) :
    ∀ (pairs : List (M × M)) (i : Nat),
      successOffspring funcs table pick i pairs = [] := by
  intro pairs
  induction pairs with
  | nil => intro i; rfl
  | cons pr rest ih =>
    intro i
    obtain ⟨p1, p2⟩ := pr
    have hstep : stepOffspring funcs table pick i p1 p2 = [] := by
      unfold stepOffspring
      cases hc : npChoice funcs (pick i) with
      | none => simp only [hc]
      | some fd =>
        simp only [hc]
        cases hg : getattrT table fd.name with
        | none => simp only [hg]
        | some f =>
          simp only [hg]
          obtain ⟨e, he⟩ := hfail fd (npChoice_mem funcs (pick i) fd hc) f hg p1 p2
          simp only [he]
    simp only [successOffspring, hstep, List.nil_append]
    exact ih (i + 1)

theorem callTrace_get? {M P : Type} (funcs : List (FunctionData P)) (pick : Nat → Nat) :
    ∀ (pairs : List (M × M)) (i : Nat),
      (callTrace funcs pick i pairs).length = pairs.length →
      ∀ (j : Nat) (c : FunctionData P × M × M),
        (callTrace funcs pick i pairs).get? j = some c →
        pairs.get? j = some c.2 ∧ npChoice funcs (pick (i + j)) = some c.1 := by
  intro pairs
  induction pairs with
  | nil =>
    intro i _ j c hc
    simp [callTrace] at hc
  | cons pr rest ih =>
    intro i hlen j c hc
    obtain ⟨p1, p2⟩ := pr
    cases hnp : npChoice funcs (pick i) with
    | none =>
      rw [show callTrace funcs pick i ((p1, p2) :: rest) = [] by
        simp only [callTrace, hnp]] at hlen
      simp at hlen
    | some fd =>
      rw [show callTrace funcs pick i ((p1, p2) :: rest) =
          (fd, p1, p2) :: callTrace funcs pick (i + 1) rest by
        simp only [callTrace, hnp]] at hlen hc
      simp only [List.length_cons] at hlen
      cases j with
      | zero =>
        simp only [List.get?] at hc
        cases hc
        exact ⟨rfl, by simpa using hnp⟩
      | succ j =>
        simp only [List.get?] at hc
        have := ih (i + 1) (by omega) j c hc
        refine ⟨this.1, ?_⟩
        have h2 := this.2
        rwa [show i + 1 + j = i + (j + 1) by omega] at h2

theorem multSum_eq_countP {M : Type} [DecidableEq M] (m : M) :
    ∀ (pairs : List (M × M)), (∀ pr ∈ pairs, pr.1 ≠ pr.2) →
      multSum m pairs =
        pairs.countP (fun pr => decide (pr.1 = m) || decide (pr.2 = m)) := by
  intro pairs
  induction pairs with
  | nil => intro; rfl
  | cons pr rest ih =>
    intro hdist
    have hd : pr.1 ≠ pr.2 := hdist pr (by simp)
    have hrest := ih (fun q hq => hdist q (List.mem_cons_of_mem _ hq))
    obtain ⟨a, b⟩ := pr
    simp only [ne_eq] at hd
    simp only [multSum, List.map_cons, List.sum_cons, List.countP_cons] at *
    rw [hrest]
    by_cases ha : a = m <;> by_cases hb : b = m
    · exact absurd (ha.trans hb.symm) hd
    · simp [pairMult, ha, hb]
      omega
    · simp [pairMult, ha, hb]
      omega
    · simp [pairMult, ha, hb]

theorem call_ok {M P : Type} [DecidableEq M] (cfg : Crossover P)
    (table : List (String × (M → M → P → Except PyExc (List M))))
    (pick : Nat → Nat) (stream : Nat → Option (M × M))
    (population : List M) (counterPath : String) (res : CallResult M P)
    (h : Crossover.call cfg table pick stream population counterPath = Except.ok res) :
    ∃ st, callLoop cfg.funcs table pick (islice stream cfg.num_crossovers) 0
        { offspring := [], counter := [], attempts := 0, calls := [] } = Except.ok st
      ∧ res.offspring = popSub st.offspring population
      ∧ res.attempts = st.attempts
      ∧ res.calls = st.calls
      ∧ (counterPath.isEmpty = true → res.counter = st.counter ∧ res.plotted = none)
      ∧ (counterPath.isEmpty = false →
          res.counter = fillZeros st.counter population
          ∧ res.plotted = some (fillZeros st.counter population, counterPath)) := by
  unfold Crossover.call at h
  cases hl : callLoop cfg.funcs table pick (islice stream cfg.num_crossovers) 0
      { offspring := [], counter := [], attempts := 0, calls := [] } with
  | error e =>
    simp only [hl] at h
    exact Except.noConfusion h
  | ok st =>
    simp only [hl] at h
    refine ⟨st, rfl, ?_⟩
    by_cases hp : counterPath.isEmpty
    · simp only [if_pos hp] at h
      cases h
      refine ⟨rfl, rfl, rfl, fun _ => ⟨rfl, rfl⟩, fun hf => ?_⟩
      rw [hp] at hf
      cases hf
    · simp only [if_neg hp] at h
      cases h
      refine ⟨rfl, rfl, rfl, fun ht => ?_, fun _ => ⟨rfl, rfl⟩⟩
      exact absurd ht hp

theorem call_total {M P : Type} [DecidableEq M] (cfg : Crossover P)
    (table : List (String × (M → M → P → Except PyExc (List M))))
    (pick : Nat → Nat) (stream : Nat → Option (M × M))
    (population : List M) (counterPath : String)
    (hne : cfg.funcs ≠ [])
    (hres : ∀ fd ∈ cfg.funcs, ∃ f, getattrT table fd.name = some f) :
    ∃ res, Crossover.call cfg table pick stream population counterPath = Except.ok res := by
  obtain ⟨st, hl⟩ := callLoop_total cfg.funcs table pick hne hres
    (islice stream cfg.num_crossovers) 0
    { offspring := [], counter := [], attempts := 0, calls := [] }
  unfold Crossover.call
  simp only [hl]
  by_cases hp : counterPath.isEmpty
  · simp only [if_pos hp]
    exact ⟨_, rfl⟩
  · simp only [if_neg hp]
    exact ⟨_, rfl⟩

/-! ## Lemmas about the lexicographic selection in bb_lk_exchange -/

theorem lexLe_refl {B : Type} [LinearOrder B] (p : Nat × B) : lexLe p p :=
  Or.inr ⟨rfl, le_refl _⟩

theorem lexLe_trans {B : Type} [LinearOrder B] {p q r : Nat × B}
    (h1 : lexLe p q) (h2 : lexLe q r) : lexLe p r := by
  rcases h1 with h1 | ⟨h1a, h1b⟩ <;> rcases h2 with h2 | ⟨h2a, h2b⟩
  · exact Or.inl (lt_trans h1 h2)
  · exact Or.inl (h2a ▸ h1)
  · exact Or.inl (h1a ▸ h2)
  · exact Or.inr ⟨h1a.trans h2a, le_trans h1b h2b⟩

theorem lexLtB_true_le {B : Type} [LinearOrder B] {p q : Nat × B}
    (h : lexLtB p q = true) : lexLe p q := by
  simp only [lexLtB, Bool.or_eq_true, Bool.and_eq_true, decide_eq_true_eq] at h
  rcases h with h | ⟨h1, h2⟩
  · exact Or.inl h
  · exact Or.inr ⟨h1, le_of_lt h2⟩

theorem lexLtB_false_le {B : Type} [LinearOrder B] {p q : Nat × B}
    (h : lexLtB p q = false) : lexLe q p := by
  simp only [lexLtB, Bool.or_eq_false_iff, Bool.and_eq_false_iff,
    decide_eq_false_iff_not] at h
  obtain ⟨h1, h2⟩ := h
  rcases Nat.lt_or_ge q.1 p.1 with hlt | hge
  · exact Or.inl hlt
  · have heq : q.1 = p.1 := by omega
    refine Or.inr ⟨heq, ?_⟩
    rcases h2 with h2 | h2
    · exact absurd heq.symm h2
    · exact le_of_not_lt h2

theorem lexMaxFold_cons {B : Type} [LinearOrder B] (best q0 : Nat × B)
    (rest : List (Nat × B)) :
    lexMaxFold best (q0 :: rest) =
      lexMaxFold (if lexLtB best q0 then q0 else best) rest := rfl

theorem lexMinFold_cons {B : Type} [LinearOrder B] (best q0 : Nat × B)
    (rest : List (Nat × B)) :
    lexMinFold best (q0 :: rest) =
      lexMinFold (if lexLtB q0 best then q0 else best) rest := rfl

theorem lexMaxFold_spec {B : Type} [LinearOrder B] :
    ∀ (l : List (Nat × B)) (best : Nat × B),
      lexMaxFold best l ∈ best :: l
      ∧ ∀ q ∈ best :: l, lexLe q (lexMaxFold best l) := by
  intro l
  induction l with
  | nil =>
    intro best
    exact ⟨by simp [lexMaxFold], by simp [lexMaxFold]; exact lexLe_refl best⟩
  | cons q0 rest ih =>
    intro best
    rw [lexMaxFold_cons]
    by_cases hlt : lexLtB best q0 = true
    · rw [if_pos hlt]
      obtain ⟨ihmem, ihle⟩ := ih q0
      constructor
      · rcases List.mem_cons.mp ihmem with hm | hm
        · rw [hm]
          exact List.mem_cons_of_mem _ (List.mem_cons_self _ _)
        · exact List.mem_cons_of_mem _ (List.mem_cons_of_mem _ hm)
      · intro q hq
        rcases List.mem_cons.mp hq with hq | hq
        · subst hq
          exact lexLe_trans (lexLtB_true_le hlt) (ihle q0 (List.mem_cons_self _ _))
        · exact ihle q hq
    · rw [if_neg hlt]
      have hfalse : lexLtB best q0 = false := by
        cases hb : lexLtB best q0
        · rfl
        · exact absurd hb hlt
      obtain ⟨ihmem, ihle⟩ := ih best
      constructor
      · rcases List.mem_cons.mp ihmem with hm | hm
        · rw [hm]
          exact List.mem_cons_self _ _
        · exact List.mem_cons_of_mem _ (List.mem_cons_of_mem _ hm)
      · intro q hq
        rcases List.mem_cons.mp hq with hq | hq
        · subst hq
          exact ihle q (List.mem_cons_self _ _)
        · rcases List.mem_cons.mp hq with hq | hq
          · subst hq
            exact lexLe_trans (lexLtB_false_le hfalse) (ihle best (List.mem_cons_self _ _))
          · exact ihle q (List.mem_cons_of_mem _ hq)

theorem lexMinFold_spec {B : Type} [LinearOrder B] :
    ∀ (l : List (Nat × B)) (best : Nat × B),
      lexMinFold best l ∈ best :: l
      ∧ ∀ q ∈ best :: l, lexLe (lexMinFold best l) q := by
  intro l
  induction l with
  | nil =>
    intro best
    exact ⟨by simp [lexMinFold], by simp [lexMinFold]; exact lexLe_refl best⟩
  | cons q0 rest ih =>
    intro best
    rw [lexMinFold_cons]
    by_cases hlt : lexLtB q0 best = true
    · rw [if_pos hlt]
      obtain ⟨ihmem, ihle⟩ := ih q0
      constructor
      · rcases List.mem_cons.mp ihmem with hm | hm
        · rw [hm]
          exact List.mem_cons_of_mem _ (List.mem_cons_self _ _)
        · exact List.mem_cons_of_mem _ (List.mem_cons_of_mem _ hm)
      · intro q hq
        rcases List.mem_cons.mp hq with hq | hq
        · subst hq
          exact lexLe_trans (ihle q0 (List.mem_cons_self _ _)) (lexLtB_true_le hlt)
        · exact ihle q hq
    · rw [if_neg hlt]
      have hfalse : lexLtB q0 best = false := by
        cases hb : lexLtB q0 best
        · rfl
        · exact absurd hb hlt
      obtain ⟨ihmem, ihle⟩ := ih best
      constructor
      · rcases List.mem_cons.mp ihmem with hm | hm
        · rw [hm]
          exact List.mem_cons_self _ _
        · exact List.mem_cons_of_mem _ (List.mem_cons_of_mem _ hm)
      · intro q hq
        rcases List.mem_cons.mp hq with hq | hq
        · subst hq
          exact ihle q (List.mem_cons_self _ _)
        · rcases List.mem_cons.mp hq with hq | hq
          · subst hq
            exact lexLe_trans (ihle best (List.mem_cons_self _ _)) (lexLtB_false_le hfalse)
          · exact ihle q (List.mem_cons_of_mem _ hq)

theorem bb_lk_exchange_eq {B T : Type} [LinearOrder B] [DecidableEq T]
    (macro_mol1 macro_mol2 : CageIn B T)
    (p1 : Nat × B) (r1 : List (Nat × B)) (p2 : Nat × B) (r2 : List (Nat × B))
    (h1 : zippedCounter macro_mol1 = p1 :: r1)
    (h2 : zippedCounter macro_mol2 = p2 :: r2) :
    Crossover.bb_lk_exchange macro_mol1 macro_mol2 =
      Except.ok
        ([{ bblocks := ((lexMaxFold p1 r1).2, (lexMinFold p2 r2).2), topology := macro_mol1.topology },
          { bblocks := ((lexMaxFold p2 r2).2, (lexMinFold p1 r1).2), topology := macro_mol1.topology },
          { bblocks := ((lexMaxFold p1 r1).2, (lexMinFold p2 r2).2), topology := macro_mol2.topology },
          { bblocks := ((lexMaxFold p2 r2).2, (lexMinFold p1 r1).2), topology := macro_mol2.topology }],
         addMembers
           (addMembers []
             [{ bblocks := ((lexMaxFold p1 r1).2, (lexMinFold p2 r2).2), topology := macro_mol1.topology },
              { bblocks := ((lexMaxFold p2 r2).2, (lexMinFold p1 r1).2), topology := macro_mol1.topology }])
           [{ bblocks := ((lexMaxFold p1 r1).2, (lexMinFold p2 r2).2), topology := macro_mol2.topology },
            { bblocks := ((lexMaxFold p2 r2).2, (lexMinFold p1 r1).2), topology := macro_mol2.topology }]) := by
  unfold Crossover.bb_lk_exchange
  simp only [h1, h2, List.foldl_cons, List.foldl_nil, List.nil_append, List.cons_append]

/-! ## Claim theorems -/

/-- C1: for every input population, the population returned by
`Crossover.__call__` is exactly the set of offspring accumulated from
the successful crossover invocations minus the members of the input
population (set difference); in particular an offspring equal to an
existing member of the population never appears in the returned
population. -/
theorem crossover_call_dedup_against_population {M P : Type} [DecidableEq M]
    (cfg : Crossover P)
    (table : List (String × (M → M → P → Except PyExc (List M))))
    (pick : Nat → Nat) (stream : Nat → Option (M × M))
    (population : List M) (counterPath : String) (res : CallResult M P)
    (h : Crossover.call cfg table pick stream population counterPath = Except.ok res) :
    ∀ m : M,
      (m ∈ res.offspring ↔
        m ∈ successOffspring cfg.funcs table pick 0 (islice stream cfg.num_crossovers)
        ∧ ¬ m ∈ population)
      ∧ (m ∈ population → ¬ m ∈ res.offspring) := by
  obtain ⟨st, hl, hoff, -⟩ :=
    call_ok cfg table pick stream population counterPath res h
  obtain ⟨hmem, -⟩ := callLoop_ok cfg.funcs table pick _ 0 _ st hl
  intro m
  have hiff : m ∈ res.offspring ↔
      m ∈ successOffspring cfg.funcs table pick 0 (islice stream cfg.num_crossovers)
      ∧ ¬ m ∈ population := by
    rw [hoff, popSub_mem, hmem m]
    simp
  exact ⟨hiff, fun hp hr => (hiff.mp hr).2 hp⟩

/-- Witness for C1 on the fixtures: offspring 5 is kept (it is new),
while 3 — a member of the population — could never be returned. -/
theorem crossover_call_dedup_against_population_witness :
    ((5 : Nat) ∈ exampleRes.offspring ↔
      5 ∈ successOffspring exampleCfg.funcs sumTable examplePick 0
            (islice exampleStream exampleCfg.num_crossovers)
      ∧ ¬ 5 ∈ examplePop)
    ∧ ((3 : Nat) ∈ examplePop → ¬ 3 ∈ exampleRes.offspring) :=
  ⟨(crossover_call_dedup_against_population exampleCfg sumTable examplePick
      exampleStream examplePop pathEmpty exampleRes (by rfl) 5).1,
   (crossover_call_dedup_against_population exampleCfg sumTable examplePick
      exampleStream examplePop pathEmpty exampleRes (by rfl) 3).2⟩

/-- C2: when the function list is nonempty and every configured name
resolves to a method, `Crossover.__call__` returns normally whatever the
invocations do; every returned offspring stems from a non-raising
invocation, and if every invocation raises, the offspring list is empty
instead of an exception propagating. -/
theorem crossover_call_exception_isolation {M P : Type} [DecidableEq M]
    (cfg : Crossover P)
    (table : List (String × (M → M → P → Except PyExc (List M))))
    (pick : Nat → Nat) (stream : Nat → Option (M × M))
    (population : List M) (counterPath : String)
    (hne : cfg.funcs ≠ [])
    (hres : ∀ fd ∈ cfg.funcs, ∃ f, getattrT table fd.name = some f) :
    ∃ res, Crossover.call cfg table pick stream population counterPath = Except.ok res
      ∧ (∀ m ∈ res.offspring,
          m ∈ successOffspring cfg.funcs table pick 0 (islice stream cfg.num_crossovers))
      ∧ ((∀ fd ∈ cfg.funcs, ∀ f, getattrT table fd.name = some f →
            ∀ a b : M, ∃ e, f a b fd.params = Except.error e) →
          res.offspring = []) := by
  obtain ⟨res, hok⟩ :=
    call_total cfg table pick stream population counterPath hne hres
  obtain ⟨st, hl, hoff, -⟩ :=
    call_ok cfg table pick stream population counterPath res hok
  obtain ⟨hmem, -⟩ := callLoop_ok cfg.funcs table pick _ 0 _ st hl
  refine ⟨res, hok, ?_, ?_⟩
  · intro m hm
    rw [hoff, popSub_mem] at hm
    have := (hmem m).mp hm.1
    simpa using this
  · intro hfail
    have hsucc := successOffspring_all_error cfg.funcs table pick hfail
      (islice stream cfg.num_crossovers) 0
    have hempty : st.offspring = [] := by
      cases hso : st.offspring with
      | nil => rfl
      | cons x xs =>
        have hx := (hmem x).mp (by rw [hso]; exact List.mem_cons_self _ _)
        rw [hsucc] at hx
        simp at hx
    rw [hoff, hempty]
    rfl

/-- Witness for C2 on the fixtures with the always-raising table: the
call still returns, and its offspring list is empty. -/
theorem crossover_call_exception_isolation_witness :
    ∃ res, Crossover.call exampleCfg failTable examplePick exampleStream
        examplePop pathEmpty = Except.ok res
      ∧ (∀ m ∈ res.offspring,
          m ∈ successOffspring exampleCfg.funcs failTable examplePick 0
                (islice exampleStream exampleCfg.num_crossovers))
      ∧ ((∀ fd ∈ exampleCfg.funcs, ∀ f, getattrT failTable fd.name = some f →
            ∀ a b : Nat, ∃ e, f a b fd.params = Except.error e) →
          res.offspring = []) :=
  crossover_call_exception_isolation exampleCfg failTable examplePick
    exampleStream examplePop pathEmpty (by decide)
    (fun fd hfd => ⟨fun _ _ _ => Except.error PyExc.exc, by
      have : fd = { name := fName, params := () } := by
        simpa [exampleCfg, exampleFuncs] using hfd
      rw [this]
      rfl⟩)

/-- C3: the number of parent pairs drawn — and hence of crossover
attempts — is the minimum of `num_crossovers` and the length of the
selection stream; it never exceeds `num_crossovers`, equals it exactly
on an unbounded stream, and every drawn pair counts as one attempt,
successful or not. -/
theorem crossover_call_attempt_count {M P : Type} [DecidableEq M] :
    (∀ (l : List (M × M)) (n : Nat),
        (islice (streamOfList l) n).length = min n l.length)
    ∧ (∀ (s : Nat → Option (M × M)) (n : Nat), (islice s n).length ≤ n)
    ∧ (∀ (s : Nat → Option (M × M)) (n : Nat), (∀ j, (s j).isSome) →
        (islice s n).length = n)
    ∧ (∀ (cfg : Crossover P)
        (table : List (String × (M → M → P → Except PyExc (List M))))
        (pick : Nat → Nat) (stream : Nat → Option (M × M))
        (population : List M) (counterPath : String) (res : CallResult M P),
        Crossover.call cfg table pick stream population counterPath = Except.ok res →
        res.attempts = (islice stream cfg.num_crossovers).length) := by
  refine ⟨islice_list_length, islice_length_le,
    fun s n h => islice_length_total s n h, ?_⟩
  intro cfg table pick stream population counterPath res h
  obtain ⟨st, hl, -, hatt, -⟩ :=
    call_ok cfg table pick stream population counterPath res h
  have := (callLoop_ok cfg.funcs table pick _ 0 _ st hl).2.2.1
  rw [hatt, this]
  simp

/-- Witness for C3 on the fixtures: a 3-element stream cut at 2 yields
2 draws; an unbounded stream cut at 2 yields 2; the sample run performed
2 attempts. -/
theorem crossover_call_attempt_count_witness :
    (islice (streamOfList [((1 : Nat), (2 : Nat)), (2, 3), (3, 4)]) 2).length = min 2 3
    ∧ (islice (fun _ => some ((0 : Nat), (0 : Nat))) 2).length = 2
    ∧ exampleRes.attempts = (islice exampleStream exampleCfg.num_crossovers).length :=
  ⟨(@crossover_call_attempt_count Nat Unit _).1 [(1, 2), (2, 3), (3, 4)] 2,
   (@crossover_call_attempt_count Nat Unit _).2.2.1 (fun _ => some (0, 0)) 2
     (fun _ => rfl),
   (@crossover_call_attempt_count Nat Unit _).2.2.2 exampleCfg sumTable examplePick
     exampleStream examplePop pathEmpty exampleRes (by rfl)⟩

/-- C4: each attempt samples exactly one `FunctionData` (one trace entry
per attempt), the sampled object always belongs to the configured
`funcs` list, and the invocation at position `j` applies the method
named by that `FunctionData` to the `j`-th drawn pair as positional
arguments, with its `params`; the sampled object is the element of
`funcs` returned by `np.random.choice` for the oracle index `pick j`. -/
theorem crossover_call_weighted_dispatch {M P : Type} [DecidableEq M]
    (cfg : Crossover P)
    (table : List (String × (M → M → P → Except PyExc (List M))))
    (pick : Nat → Nat) (stream : Nat → Option (M × M))
    (population : List M) (counterPath : String) (res : CallResult M P)
    (h : Crossover.call cfg table pick stream population counterPath = Except.ok res) :
    res.calls = callTrace cfg.funcs pick 0 (islice stream cfg.num_crossovers)
    ∧ res.calls.length = res.attempts
    ∧ (∀ c ∈ res.calls, c.1 ∈ cfg.funcs)
    ∧ (∀ (j : Nat) (c : FunctionData P × M × M),
        res.calls.get? j = some c →
        (islice stream cfg.num_crossovers).get? j = some c.2
        ∧ npChoice cfg.funcs (pick j) = some c.1) := by
  obtain ⟨st, hl, -, hatt, hcalls, -⟩ :=
    call_ok cfg table pick stream population counterPath res h
  obtain ⟨-, -, hatt', hcalls', htrlen, -⟩ :=
    callLoop_ok cfg.funcs table pick _ 0 _ st hl
  have h1 : res.calls = callTrace cfg.funcs pick 0 (islice stream cfg.num_crossovers) := by
    rw [hcalls, hcalls']
    simp
  refine ⟨h1, ?_, ?_, ?_⟩
  · rw [h1, htrlen, hatt, hatt']
    simp
  · intro c hc
    rw [h1] at hc
    obtain ⟨j, hj⟩ := List.mem_iff_get?.mp hc
    have := (callTrace_get? cfg.funcs pick _ 0 htrlen j c hj).2
    exact npChoice_mem _ _ _ (by simpa using this)
  · intro j c hc
    rw [h1] at hc
    have := callTrace_get? cfg.funcs pick _ 0 htrlen j c hc
    exact ⟨this.1, by simpa using this.2⟩

/-- Witness for C4 on the fixtures: the second recorded call used the
configured function on the second drawn pair. -/
theorem crossover_call_weighted_dispatch_witness :
    (∀ c ∈ exampleRes.calls, c.1 ∈ exampleCfg.funcs)
    ∧ ((islice exampleStream exampleCfg.num_crossovers).get? 1 =
        some ((({ name := fName, params := () } : FunctionData Unit),
               ((2 : Nat), (3 : Nat))) : FunctionData Unit × Nat × Nat).2
      ∧ npChoice exampleCfg.funcs (examplePick 1) =
          some ((({ name := fName, params := () } : FunctionData Unit),
                 ((2 : Nat), (3 : Nat))) : FunctionData Unit × Nat × Nat).1) :=
  ⟨(crossover_call_weighted_dispatch exampleCfg sumTable examplePick exampleStream
      examplePop pathEmpty exampleRes (by rfl)).2.2.1,
   (crossover_call_weighted_dispatch exampleCfg sumTable examplePick exampleStream
      examplePop pathEmpty exampleRes (by rfl)).2.2.2 1 _ (by rfl)⟩

/-- C8: with an empty `counter_path` no plot is produced; with a
nonempty one, `plot_counter` is called exactly once, with that path and
a counter whose keys include every member of the input population, and
every member that belongs to no drawn parent pair is plotted with
count 0. -/
theorem crossover_call_plot_counter {M P : Type} [DecidableEq M]
    (cfg : Crossover P)
    (table : List (String × (M → M → P → Except PyExc (List M))))
    (pick : Nat → Nat) (stream : Nat → Option (M × M)) (population : List M) :
    (∀ (counterPath : String) (res : CallResult M P),
        counterPath.isEmpty = true →
        Crossover.call cfg table pick stream population counterPath = Except.ok res →
        res.plotted = none)
    ∧ (∀ (counterPath : String) (res : CallResult M P),
        counterPath.isEmpty = false →
        Crossover.call cfg table pick stream population counterPath = Except.ok res →
        ∃ cf, res.plotted = some (cf, counterPath)
          ∧ (∀ m ∈ population, m ∈ cntKeys cf)
          ∧ (∀ m ∈ population,
              (∀ pr ∈ islice stream cfg.num_crossovers, pr.1 ≠ m ∧ pr.2 ≠ m) →
              cntCount cf m = 0)) := by
  constructor
  · intro counterPath res hp h
    obtain ⟨st, hl, -, -, -, he, -⟩ :=
      call_ok cfg table pick stream population counterPath res h
    exact (he hp).2
  · intro counterPath res hp h
    obtain ⟨st, hl, -, -, -, -, hne⟩ :=
      call_ok cfg table pick stream population counterPath res h
    obtain ⟨hcf, hplot⟩ := hne hp
    refine ⟨fillZeros st.counter population, hplot, ?_, ?_⟩
    · intro m hm
      exact fillZeros_keys population st.counter m (Or.inr hm)
    · intro m hm hnotsel
      have hkeys := (callLoop_ok cfg.funcs table pick _ 0 _ st hl).2.2.2.2.2
      have hmk : ¬ m ∈ cntKeys st.counter := by
        rw [hkeys m]
        intro hcon
        rcases hcon with hcon | ⟨pr, hpr, hprm⟩
        · simp [cntKeys] at hcon
        · rcases hprm with h1 | h1
          · exact (hnotsel pr hpr).1 h1
          · exact (hnotsel pr hpr).2 h1
      rw [fillZeros_count]
      exact cntCount_of_not_key st.counter m hmk

/-- Witness for C8 on the fixtures: the empty-path run plots nothing;
the nonempty-path run plots once with a counter covering the whole
population. -/
theorem crossover_call_plot_counter_witness :
    exampleRes.plotted = none
    ∧ ∃ cf, exampleResPlot.plotted = some (cf, pathPng)
        ∧ (∀ m ∈ examplePop, m ∈ cntKeys cf)
        ∧ (∀ m ∈ examplePop,
            (∀ pr ∈ islice exampleStream exampleCfg.num_crossovers,
              pr.1 ≠ m ∧ pr.2 ≠ m) →
            cntCount cf m = 0) :=
  ⟨(crossover_call_plot_counter exampleCfg sumTable examplePick exampleStream
      examplePop).1 pathEmpty exampleRes (by rfl) (by rfl),
   (crossover_call_plot_counter exampleCfg sumTable examplePick exampleStream
      examplePop).2 pathPng exampleResPlot (by rfl) (by rfl)⟩

/-- C9 (amended): for every molecule, the final counter value equals the
sum over drawn parent pairs of the multiplicity of the molecule among
the two parents of the pair — pairs whose invocation raised included,
since the table of crossover functions is arbitrary here — so a
degenerate pair contributes 2; when every drawn pair consists of two
distinct parents this is exactly the number of drawn pairs the molecule
belongs to. -/
theorem crossover_call_selection_counter {M P : Type} [DecidableEq M]
    (cfg : Crossover P)
    (table : List (String × (M → M → P → Except PyExc (List M))))
    (pick : Nat → Nat) (stream : Nat → Option (M × M))
    (population : List M) (counterPath : String) (res : CallResult M P)
    (h : Crossover.call cfg table pick stream population counterPath = Except.ok res) :
    ∀ m : M,
      cntCount res.counter m = multSum m (islice stream cfg.num_crossovers)
      ∧ ((∀ pr ∈ islice stream cfg.num_crossovers, pr.1 ≠ pr.2) →
          cntCount res.counter m =
            (islice stream cfg.num_crossovers).countP
              (fun pr => decide (pr.1 = m) || decide (pr.2 = m))) := by
  obtain ⟨st, hl, -, -, -, he, hne⟩ :=
    call_ok cfg table pick stream population counterPath res h
  have hcnt := (callLoop_ok cfg.funcs table pick _ 0 _ st hl).2.1
  intro m
  have hbase : cntCount st.counter m = multSum m (islice stream cfg.num_crossovers) := by
    have := hcnt m
    simpa [cntCount] using this
  have hc : cntCount res.counter m = multSum m (islice stream cfg.num_crossovers) := by
    by_cases hp : counterPath.isEmpty = true
    · rw [(he hp).1, hbase]
    · have hpf : counterPath.isEmpty = false := by
        cases hb : counterPath.isEmpty
        · rfl
        · exact absurd hb hp
      rw [(hne hpf).1, fillZeros_count, hbase]
  refine ⟨hc, fun hdist => ?_⟩
  rw [hc, multSum_eq_countP m (islice stream cfg.num_crossovers) hdist]

/-- Counterexample to C9 as stated: with a drawn degenerate pair
`(1, 1)` the final count of molecule 1 is 2, while the number of drawn
pairs containing it is 1, so the final count does not equal the number
of drawn pairs the molecule belongs to. -/
theorem crossover_call_selection_counter_counterexample :
    Crossover.call exampleCfg sumTable examplePick dupStream examplePop pathEmpty
      = Except.ok dupRes
    ∧ cntCount dupRes.counter 1 = 2
    ∧ (islice dupStream exampleCfg.num_crossovers).countP
        (fun pr => decide (pr.1 = 1) || decide (pr.2 = 1)) = 1
    ∧ cntCount dupRes.counter 1 ≠
        (islice dupStream exampleCfg.num_crossovers).countP
          (fun pr => decide (pr.1 = 1) || decide (pr.2 = 1)) :=
  ⟨by rfl, by rfl, by rfl, by decide⟩

/-- Witness for C9 on the fixtures: molecule 2 belongs to both drawn
pairs (which are non-degenerate) and its final count is 2, matching
both the multiplicity sum and the pair count. -/
theorem crossover_call_selection_counter_witness :
    cntCount exampleRes.counter 2 =
      multSum 2 (islice exampleStream exampleCfg.num_crossovers)
    ∧ cntCount exampleRes.counter 2 =
        (islice exampleStream exampleCfg.num_crossovers).countP
          (fun pr => decide (pr.1 = 2) || decide (pr.2 = 2)) :=
  ⟨(crossover_call_selection_counter exampleCfg sumTable examplePick exampleStream
      examplePop pathEmpty exampleRes (by rfl) 2).1,
   (crossover_call_selection_counter exampleCfg sumTable examplePick exampleStream
      examplePop pathEmpty exampleRes (by rfl) 2).2 (by decide)⟩

/-- C5: every offspring constructed by `bb_lk_exchange` pairs the linker
of one parent with the building block of the other parent — either
`(c1_lk, c2_bb)` or `(c2_lk, c1_bb)` — and, whenever the selected
components of the two parents are distinct, no offspring carries the
building-block/linker combination of a single parent. -/
theorem bb_lk_exchange_cross_combination {B T : Type} [LinearOrder B] [DecidableEq T]
    (macro_mol1 macro_mol2 : CageIn B T)
    (cons pop : List (CageArgs B T))
    (h : Crossover.bb_lk_exchange macro_mol1 macro_mol2 = Except.ok (cons, pop)) :
    ∃ c1_lk c1_bb c2_lk c2_bb : B,
      cageLk macro_mol1 = some c1_lk ∧ cageBb macro_mol1 = some c1_bb
      ∧ cageLk macro_mol2 = some c2_lk ∧ cageBb macro_mol2 = some c2_bb
      ∧ (∀ o ∈ cons, o.bblocks = (c1_lk, c2_bb) ∨ o.bblocks = (c2_lk, c1_bb))
      ∧ (∀ o ∈ pop, o ∈ cons)
      ∧ (c1_bb ≠ c2_bb → c1_lk ≠ c2_lk →
          ∀ o ∈ cons, o.bblocks ≠ (c1_lk, c1_bb) ∧ o.bblocks ≠ (c2_lk, c2_bb)) := by
  cases h1 : zippedCounter macro_mol1 with
  | nil =>
    have herr : Crossover.bb_lk_exchange macro_mol1 macro_mol2 =
        Except.error PyExc.valueError := by
      unfold Crossover.bb_lk_exchange
      rw [h1]
    rw [herr] at h
    exact Except.noConfusion h
  | cons p1 r1 =>
    cases h2 : zippedCounter macro_mol2 with
    | nil =>
      have herr : Crossover.bb_lk_exchange macro_mol1 macro_mol2 =
          Except.error PyExc.valueError := by
        unfold Crossover.bb_lk_exchange
        rw [h1, h2]
      rw [herr] at h
      exact Except.noConfusion h
    | cons p2 r2 =>
      rw [bb_lk_exchange_eq macro_mol1 macro_mol2 p1 r1 p2 r2 h1 h2] at h
      injection h with h
      rw [Prod.mk.injEq] at h
      obtain ⟨hcons, hpop⟩ := h
      subst hcons
      subst hpop
      refine ⟨(lexMaxFold p1 r1).2, (lexMinFold p1 r1).2,
        (lexMaxFold p2 r2).2, (lexMinFold p2 r2).2,
        by unfold cageLk; rw [h1], by unfold cageBb; rw [h1],
        by unfold cageLk; rw [h2], by unfold cageBb; rw [h2], ?_, ?_, ?_⟩
      · intro o ho
        simp only [List.mem_cons, List.not_mem_nil, or_false] at ho
        rcases ho with rfl | rfl | rfl | rfl
        · exact Or.inl rfl
        · exact Or.inr rfl
        · exact Or.inl rfl
        · exact Or.inr rfl
      · intro o ho
        rw [addMembers_mem, addMembers_mem] at ho
        simp only [List.not_mem_nil, false_or, List.mem_cons, or_false] at ho
        simp only [List.mem_cons, List.not_mem_nil, or_false]
        tauto
      · intro hbb hlk o ho
        simp only [List.mem_cons, List.not_mem_nil, or_false] at ho
        rcases ho with rfl | rfl | rfl | rfl <;>
          refine ⟨fun hcon => ?_, fun hcon => ?_⟩ <;>
          rw [Prod.mk.injEq] at hcon
        · exact hbb hcon.2.symm
        · exact hlk hcon.1
        · exact hlk hcon.1.symm
        · exact hbb hcon.2
        · exact hbb hcon.2.symm
        · exact hlk hcon.1
        · exact hlk hcon.1.symm
        · exact hbb hcon.2

/-- Witness for C5 on `cage1` and `cage2`: linkers 20 and 40 are paired
with building blocks 30 and 10 of the other parent. -/
theorem bb_lk_exchange_cross_combination_witness :
    ∃ c1_lk c1_bb c2_lk c2_bb : Nat,
      cageLk cage1 = some c1_lk ∧ cageBb cage1 = some c1_bb
      ∧ cageLk cage2 = some c2_lk ∧ cageBb cage2 = some c2_bb
      ∧ (∀ o ∈ cageCons, o.bblocks = (c1_lk, c2_bb) ∨ o.bblocks = (c2_lk, c1_bb))
      ∧ (∀ o ∈ cageCons, o ∈ cageCons)
      ∧ (c1_bb ≠ c2_bb → c1_lk ≠ c2_lk →
          ∀ o ∈ cageCons, o.bblocks ≠ (c1_lk, c1_bb) ∧ o.bblocks ≠ (c2_lk, c2_bb)) :=
  bb_lk_exchange_cross_combination cage1 cage2 cageCons cageCons (by rfl)

/-- C6: `bb_lk_exchange` iterates over the topologies of both parents
without deduplication: exactly four `Cage` constructions occur, in
order `(c1_lk, c2_bb)` and `(c2_lk, c1_bb)` for the topology of the
first parent and again for that of the second; when the parents share
one topology the same offspring pair is constructed twice. -/
theorem bb_lk_exchange_four_constructions {B T : Type} [LinearOrder B] [DecidableEq T]
    (macro_mol1 macro_mol2 : CageIn B T)
    (p1 : Nat × B) (r1 : List (Nat × B)) (p2 : Nat × B) (r2 : List (Nat × B))
    (h1 : zippedCounter macro_mol1 = p1 :: r1)
    (h2 : zippedCounter macro_mol2 = p2 :: r2) :
    ∃ cons pop, Crossover.bb_lk_exchange macro_mol1 macro_mol2 = Except.ok (cons, pop)
      ∧ cons.length = 4
      ∧ cons = [{ bblocks := ((lexMaxFold p1 r1).2, (lexMinFold p2 r2).2),
                  topology := macro_mol1.topology },
                { bblocks := ((lexMaxFold p2 r2).2, (lexMinFold p1 r1).2),
                  topology := macro_mol1.topology },
                { bblocks := ((lexMaxFold p1 r1).2, (lexMinFold p2 r2).2),
                  topology := macro_mol2.topology },
                { bblocks := ((lexMaxFold p2 r2).2, (lexMinFold p1 r1).2),
                  topology := macro_mol2.topology }]
      ∧ (macro_mol1.topology = macro_mol2.topology →
          cons.get? 0 = cons.get? 2 ∧ cons.get? 1 = cons.get? 3) := by
  refine ⟨_, _, bb_lk_exchange_eq macro_mol1 macro_mol2 p1 r1 p2 r2 h1 h2,
    rfl, rfl, ?_⟩
  intro ht
  rw [ht]
  exact ⟨rfl, rfl⟩

/-- Witness for C6 on `cage1` and `cage3`, which share topology `0`: the
four constructions repeat the same offspring pair. -/
theorem bb_lk_exchange_four_constructions_witness :
    ∃ cons pop, Crossover.bb_lk_exchange cage1 cage3 = Except.ok (cons, pop)
      ∧ cons.length = 4
      ∧ cons = [{ bblocks := ((lexMaxFold (4, 10) [(6, 20)]).2,
                              (lexMinFold (4, 50) [(6, 60)]).2),
                  topology := cage1.topology },
                { bblocks := ((lexMaxFold (4, 50) [(6, 60)]).2,
                              (lexMinFold (4, 10) [(6, 20)]).2),
                  topology := cage1.topology },
                { bblocks := ((lexMaxFold (4, 10) [(6, 20)]).2,
                              (lexMinFold (4, 50) [(6, 60)]).2),
                  topology := cage3.topology },
                { bblocks := ((lexMaxFold (4, 50) [(6, 60)]).2,
                              (lexMinFold (4, 10) [(6, 20)]).2),
                  topology := cage3.topology }]
      ∧ (cage1.topology = cage3.topology →
          cons.get? 0 = cons.get? 2 ∧ cons.get? 1 = cons.get? 3) :=
  bb_lk_exchange_four_constructions cage1 cage3 (4, 10) [(6, 20)] (4, 50) [(6, 60)]
    (by rfl) (by rfl)

/-- C7: the linker chosen for a parent cage is the key of the
lexicographically maximal `(count, key)` pair of its `bb_counter` and
the building block the key of the minimal one: the chosen pairs belong
to the zipped counter and bound all its elements in the lexicographic
order, so equal counts are tie-broken by comparing the keys. -/
theorem bb_lk_exchange_extreme_counts {B T : Type} [LinearOrder B]
    (c : CageIn B T) (p : Nat × B) (rest : List (Nat × B))
    (h : zippedCounter c = p :: rest) :
    cageLk c = some (lexMaxFold p rest).2
    ∧ cageBb c = some (lexMinFold p rest).2
    ∧ lexMaxFold p rest ∈ zippedCounter c
    ∧ (∀ q ∈ zippedCounter c, lexLe q (lexMaxFold p rest))
    ∧ lexMinFold p rest ∈ zippedCounter c
    ∧ (∀ q ∈ zippedCounter c, lexLe (lexMinFold p rest) q) := by
  obtain ⟨hmax_mem, hmax_le⟩ := lexMaxFold_spec rest p
  obtain ⟨hmin_mem, hmin_le⟩ := lexMinFold_spec rest p
  refine ⟨by unfold cageLk; rw [h], by unfold cageBb; rw [h], ?_, ?_, ?_, ?_⟩
  · rw [h]
    exact hmax_mem
  · rw [h]
    exact hmax_le
  · rw [h]
    exact hmin_mem
  · rw [h]
    exact hmin_le

/-- Witness for C7 on `cageTie`, whose two keys have equal counts: the
tie is decided by the key order, so key 1 becomes the linker and key 0
the building block. -/
theorem bb_lk_exchange_extreme_counts_witness :
    cageLk cageTie = some 1 ∧ cageBb cageTie = some 0 := by
  obtain ⟨h1, h2, -⟩ := bb_lk_exchange_extreme_counts cageTie (2, 0) [(2, 1)] (by rfl)
  exact ⟨by rw [h1]; rfl, by rw [h2]; rfl⟩
